import Mathlib

/-!
Verification of the Bayt job-board scraper
(`src/jobspy/scrapers/bayt/__init__.py`).

The scraper is embedded shallowly:

* The HTTP transport (`requests.get` + `raise_for_status`) is an oracle
  `http : String → Option String`: `none` models any transport error,
  non-success status or timeout (all of which the source converts into a
  `None` return of `_fetch_jobs` through its `try/except`).
* The HTML parser (`BeautifulSoup` + `find_all("li", attrs={"data-js-job": ""})`)
  is an oracle `parseListings : String → List ListingNode`; a `ListingNode`
  keeps exactly the pieces of the DOM the extractor reads.
* Python's process-local `hash` on strings is an oracle
  `pyhash : String → Int`; `abs` is `Int.natAbs`.
* `random.uniform` is an oracle `rng : ℚ → ℚ → Nat → ℚ` taking the two
  bounds the source passes plus the page index at which the sample is
  drawn; `time.sleep` is modelled by logging the slept duration.
* A node whose extraction raises inside the `try` of the page loop is
  observationally identical to one whose extraction returns `None`
  (both are skipped and the loop continues), so extraction is a total
  function into `Option JobPost`.
-/

/-- The `<a>` element found inside the title heading; `href` is its
`href` attribute when present (`has_attr("href")`). -/
structure AnchorElem where
  href : Option String
  deriving DecidableEq, Repr

/-- The `<h2>` heading of a listing: its stripped text
(`get_text(strip=True)`) and its first `<a>` descendant. -/
structure H2Elem where
  text : String
  anchor : Option AnchorElem
  deriving DecidableEq, Repr

/-- The `div.t-nowrap.p10l` company element; `spanText` is the stripped
text of its first `<span>` descendant when one exists. -/
structure CompanyDiv where
  spanText : Option String
  deriving DecidableEq, Repr

/-- One `li[data-js-job]` entry of a results page, reduced to the parts
`_extract_job_info` reads: the first `<h2>` descendant, the company
`div.t-nowrap.p10l`, and the stripped text of `div.t-mute.t-small`. -/
structure ListingNode where
  h2 : Option H2Elem
  companyDiv : Option CompanyDiv
  locationText : Option String
  deriving DecidableEq, Repr

/-- The `Location` value built by the extractor (the `Country` enum lives
outside this repository; the source always passes the fixed string
`"worldwide"` to `Country.from_string`, kept here verbatim). -/
structure Location where
  city : Option String
  country : String
  deriving DecidableEq, Repr

/-- The `JobPost` record assembled by `_extract_job_info` (the pydantic
schema itself lives outside this repository; the fields are those the
constructor call populates). -/
structure JobPost where
  id : String
  title : String
  company_name : Option String
  company_url : Option String
  location : Location
  date_posted : Option String
  job_url : String
  compensation : Option String
  job_type : Option String
  job_level : Option String
  company_industry : Option String
  description : Option String
  job_url_direct : Option String
  emails : List String
  company_logo : Option String
  job_function : Option String
  deriving DecidableEq, Repr

/-- The `JobResponse` wrapper returned by `scrape`. -/
structure JobResponse where
  jobs : List JobPost
  deriving DecidableEq, Repr

namespace BaytScraper

/-- Class attribute `base_url = "https://www.bayt.com"`. -/
def base_url : String := "https://www.bayt.com"

/-- Class attribute `delay = 2` (seconds, the lower sleep bound). -/
def delay : ℚ := 2

/-- Class attribute `band_delay = 3` (width of the sleep band). -/
def band_delay : ℚ := 3

/-- The URL built inside `_fetch_jobs`:
`f"{self.base_url}/en/international/jobs/{query}-jobs/?page={page}"`.
The query is interpolated verbatim. -/
def fetch_url (query : String) (page : Nat) : String :=
  base_url ++ "/en/international/jobs/" ++ query ++ "-jobs/?page=" ++ toString page

/-- `_fetch_jobs(query, page)`: build the URL, GET it, parse the body and
select the listing nodes; any failure inside the `try` yields `None`. -/
def fetchJobs (http : String → Option String)
    (parseListings : String → List ListingNode)
    (query : String) (page : Nat) : Option (List ListingNode) :=
  match http (fetch_url query page) with
  | some body => some (parseListings body)
  | none => none

/-- Python's `str.strip()`: drop whitespace from both ends. -/
def pyStrip (s : String) : String :=
  ⟨((s.data.dropWhile Char.isWhitespace).reverse.dropWhile Char.isWhitespace).reverse⟩

/-- `_extract_job_url`: the `href` of the `<a>` inside the heading,
stripped and resolved against `base_url`; `None` when the anchor or its
`href` attribute is missing. -/
def extract_job_url (job_general_information : H2Elem) : Option String :=
  match job_general_information.anchor with
  | some a =>
    match a.href with
    | some h => some (base_url ++ pyStrip h)
    | none => none
  | none => none

/-- `_extract_job_info(job)`: pull title, detail URL, company name and
location out of one listing node and assemble a `JobPost`; `None` when
the heading or the detail URL is missing. -/
def extract_job_info (pyhash : String → Int) (job : ListingNode) :
    Option JobPost :=
  match job.h2 with
  | none => none
  | some job_general_information =>
    let job_title := job_general_information.text
    match extract_job_url job_general_information with
    | none => none
    | some job_url =>
      let company_name :=
        match job.companyDiv with
        | some company_tag => company_tag.spanText
        | none => none
      let location := job.locationText
      let job_id := "bayt-" ++ toString (pyhash job_url).natAbs
      some
        { id := job_id
          title := job_title
          company_name := company_name
          company_url := some ""
          location := { city := location, country := "worldwide" }
          date_posted := none
          job_url := job_url
          compensation := none
          job_type := none
          job_level := none
          company_industry := none
          description := none
          job_url_direct := none
          emails := []
          company_logo := none
          job_function := none }

/-- The inner `for job in job_elements` loop of `scrape`: extract each
node in order, append successes, and break as soon as the accumulated
list reaches `results_wanted`.  A node whose extraction raises is caught
by the surrounding `try/except` and skipped, exactly like a `None`
result, so both are the `none` branch here. -/
def processPage (pyhash : String → Int) (results_wanted : Nat) :
    List ListingNode → List JobPost → List JobPost
  | [], job_list => job_list
  | job :: rest, job_list =>
    match extract_job_info pyhash job with
    | some job_post =>
      let job_list' := job_list ++ [job_post]
      if results_wanted ≤ job_list'.length then job_list'
      else processPage pyhash results_wanted rest job_list'
    | none => processPage pyhash results_wanted rest job_list

theorem processPage_length_le (pyhash : String → Int) (results_wanted : Nat)
    (es : List ListingNode) (job_list : List JobPost) :
    job_list.length ≤ (processPage pyhash results_wanted es job_list).length := by
  induction es generalizing job_list with
  | nil => simp [processPage]
  | cons job rest ih =>
    simp only [processPage]
    cases extract_job_info pyhash job with
    | none => exact ih job_list
    | some job_post =>
      dsimp only
      split
      · simp
      · exact le_trans (by simp) (ih (job_list ++ [job_post]))

/-- The `while len(job_list) < results_wanted` loop of `scrape`.  The
state is the page counter, the accumulated `job_list`, and the log of
durations passed to `time.sleep` (one entry per page advance, sampled
by the `rng` oracle at the bounds the source passes). -/
def scrapeLoop (fetch : Nat → Option (List ListingNode))
    (pyhash : String → Int) (rng : ℚ → ℚ → Nat → ℚ)
    (results_wanted : Nat) (page : Nat)
    (job_list : List JobPost) (sleeps : List ℚ) : List JobPost × List ℚ :=
  if h : job_list.length < results_wanted then
    match fetch page with
    | none => (job_list, sleeps)
    | some job_elements =>
      if job_elements.isEmpty then (job_list, sleeps)
      else
        if hsame : (processPage pyhash results_wanted job_elements job_list).length
            = job_list.length then
          (processPage pyhash results_wanted job_elements job_list, sleeps)
        else
          scrapeLoop fetch pyhash rng results_wanted (page + 1)
            (processPage pyhash results_wanted job_elements job_list)
            (sleeps ++ [rng delay (delay + band_delay) page])
  else (job_list, sleeps)
termination_by results_wanted - job_list.length
decreasing_by
  have hle := processPage_length_le pyhash results_wanted job_elements job_list
  omega

/-- The Python line
`results_wanted = scraper_input.results_wanted if scraper_input.results_wanted else 10`:
both `None` and the falsy `0` fall back to `10`. -/
def effective_results_wanted : Option Nat → Nat
  | some n => if n = 0 then 10 else n
  | none => 10

/-- The whole loop run performed by `scrape`, with its sleep log. -/
def scrapeRun (http : String → Option String)
    (parseListings : String → List ListingNode)
    (pyhash : String → Int) (rng : ℚ → ℚ → Nat → ℚ)
    (search_term : String) (results_wanted_input : Option Nat) :
    List JobPost × List ℚ :=
  scrapeLoop (fun p => fetchJobs http parseListings search_term p) pyhash rng
    (effective_results_wanted results_wanted_input) 1 [] []

/-- `scrape(scraper_input)`: run the pagination loop, then truncate with
the original `scraper_input.results_wanted` (`job_list[:n]`; a `None`
slice bound keeps the whole list) and wrap in a `JobResponse`. -/
def scrape (http : String → Option String)
    (parseListings : String → List ListingNode)
    (pyhash : String → Int) (rng : ℚ → ℚ → Nat → ℚ)
    (search_term : String) (results_wanted_input : Option Nat) : JobResponse :=
  let job_list :=
    (scrapeRun http parseListings pyhash rng search_term results_wanted_input).1
  match results_wanted_input with
  | none => { jobs := job_list }
  | some n => { jobs := job_list.take n }

/-- The durations handed to `time.sleep` during a `scrape` call, in
order. -/
def scrapeSleeps (http : String → Option String)
    (parseListings : String → List ListingNode)
    (pyhash : String → Int) (rng : ℚ → ℚ → Nat → ℚ)
    (search_term : String) (results_wanted_input : Option Nat) : List ℚ :=
  (scrapeRun http parseListings pyhash rng search_term results_wanted_input).2

/-- The successfully extracted records of a node list, in node order. -/
def extractedOf (pyhash : String → Int) (es : List ListingNode) : List JobPost :=
  es.filterMap (extract_job_info pyhash)

/-- All records supplied by pages `1..K`, in discovery order: page by
page, and in node order within a page (a failed or missing page
supplies nothing). -/
def supplyUpTo (fetch : Nat → Option (List ListingNode))
    (pyhash : String → Int) (K : Nat) : List JobPost :=
  (List.range K).flatMap fun i => extractedOf pyhash ((fetch (i + 1)).getD [])

theorem extractedOf_nil (pyhash : String → Int) : extractedOf pyhash [] = [] := rfl

theorem extractedOf_cons_none (pyhash : String → Int) (job : ListingNode)
    (rest : List ListingNode) (hx : extract_job_info pyhash job = none) :
    extractedOf pyhash (job :: rest) = extractedOf pyhash rest := by
  simp [extractedOf, List.filterMap_cons, hx]

theorem extractedOf_cons_some (pyhash : String → Int) (job : ListingNode)
    (rest : List ListingNode) (p : JobPost)
    (hx : extract_job_info pyhash job = some p) :
    extractedOf pyhash (job :: rest) = p :: extractedOf pyhash rest := by
  simp [extractedOf, List.filterMap_cons, hx]

/-- Closed form of the inner page loop: starting strictly below the
quota, it appends the page's extracted records in order, truncating at
the quota exactly when the quota is reached. -/
theorem processPage_eq (pyhash : String → Int) (results_wanted : Nat)
    (es : List ListingNode) (acc : List JobPost)
    (h : acc.length < results_wanted) :
    processPage pyhash results_wanted es acc =
      if results_wanted ≤ (acc ++ extractedOf pyhash es).length then
        (acc ++ extractedOf pyhash es).take results_wanted
      else acc ++ extractedOf pyhash es := by
  induction es generalizing acc with
  | nil =>
    simp only [processPage, extractedOf_nil, List.append_nil]
    rw [if_neg (by omega)]
  | cons job rest ih =>
    cases hx : extract_job_info pyhash job with
    | none =>
      simp only [processPage, hx, extractedOf_cons_none pyhash job rest hx]
      exact ih acc h
    | some p =>
      simp only [processPage, hx, extractedOf_cons_some pyhash job rest p hx]
      have hsplit : acc ++ p :: extractedOf pyhash rest
          = (acc ++ [p]) ++ extractedOf pyhash rest := by
        simp
      have hlen1 : (acc ++ [p]).length = acc.length + 1 := by simp
      by_cases hq : results_wanted ≤ (acc ++ [p]).length
      · have hrw : results_wanted = (acc ++ [p]).length := by omega
        rw [if_pos hq,
          if_pos (by simp only [List.length_append, List.length_cons]; omega)]
        rw [hsplit, hrw, List.take_left]
      · rw [if_neg hq]
        have hlt : (acc ++ [p]).length < results_wanted := by omega
        rw [ih (acc ++ [p]) hlt, hsplit]

theorem scrapeLoop_stop_quota (fetch : Nat → Option (List ListingNode))
    (pyhash : String → Int) (rng : ℚ → ℚ → Nat → ℚ)
    (results_wanted page : Nat) (job_list : List JobPost) (sleeps : List ℚ)
    (h : ¬ job_list.length < results_wanted) :
    scrapeLoop fetch pyhash rng results_wanted page job_list sleeps
      = (job_list, sleeps) := by
  unfold scrapeLoop
  rw [dif_neg h]

theorem scrapeLoop_fetch_fail (fetch : Nat → Option (List ListingNode))
    (pyhash : String → Int) (rng : ℚ → ℚ → Nat → ℚ)
    (results_wanted page : Nat) (job_list : List JobPost) (sleeps : List ℚ)
    (h : job_list.length < results_wanted) (hf : fetch page = none) :
    scrapeLoop fetch pyhash rng results_wanted page job_list sleeps
      = (job_list, sleeps) := by
  unfold scrapeLoop
  rw [dif_pos h, hf]

theorem scrapeLoop_fetch_empty (fetch : Nat → Option (List ListingNode))
    (pyhash : String → Int) (rng : ℚ → ℚ → Nat → ℚ)
    (results_wanted page : Nat) (job_list : List JobPost) (sleeps : List ℚ)
    (h : job_list.length < results_wanted) (hf : fetch page = some []) :
    scrapeLoop fetch pyhash rng results_wanted page job_list sleeps
      = (job_list, sleeps) := by
  unfold scrapeLoop
  rw [dif_pos h, hf]
  simp

theorem scrapeLoop_stagnate (fetch : Nat → Option (List ListingNode))
    (pyhash : String → Int) (rng : ℚ → ℚ → Nat → ℚ)
    (results_wanted page : Nat) (job_list : List JobPost) (sleeps : List ℚ)
    (es : List ListingNode)
    (h : job_list.length < results_wanted) (hf : fetch page = some es)
    (hne : es ≠ [])
    (hsame : (processPage pyhash results_wanted es job_list).length
      = job_list.length) :
    scrapeLoop fetch pyhash rng results_wanted page job_list sleeps
      = (processPage pyhash results_wanted es job_list, sleeps) := by
  have hne' : es.isEmpty = false := by simp [hne]
  conv_lhs => unfold scrapeLoop
  rw [dif_pos h, hf]
  simp only [hne', Bool.false_eq_true, if_false]
  rw [dif_pos hsame]

theorem scrapeLoop_advance (fetch : Nat → Option (List ListingNode))
    (pyhash : String → Int) (rng : ℚ → ℚ → Nat → ℚ)
    (results_wanted page : Nat) (job_list : List JobPost) (sleeps : List ℚ)
    (es : List ListingNode)
    (h : job_list.length < results_wanted) (hf : fetch page = some es)
    (hne : es ≠ [])
    (hdiff : (processPage pyhash results_wanted es job_list).length
      ≠ job_list.length) :
    scrapeLoop fetch pyhash rng results_wanted page job_list sleeps
      = scrapeLoop fetch pyhash rng results_wanted (page + 1)
          (processPage pyhash results_wanted es job_list)
          (sleeps ++ [rng delay (delay + band_delay) page]) := by
  have hne' : es.isEmpty = false := by simp [hne]
  conv_lhs => unfold scrapeLoop
  rw [dif_pos h, hf]
  simp only [hne', Bool.false_eq_true, if_false]
  rw [dif_neg hdiff]

theorem supplyUpTo_zero (fetch : Nat → Option (List ListingNode))
    (pyhash : String → Int) : supplyUpTo fetch pyhash 0 = [] := by
  simp [supplyUpTo]

theorem supplyUpTo_succ (fetch : Nat → Option (List ListingNode))
    (pyhash : String → Int) (m : Nat) :
    supplyUpTo fetch pyhash (m + 1)
      = supplyUpTo fetch pyhash m
          ++ extractedOf pyhash ((fetch (m + 1)).getD []) := by
  simp [supplyUpTo, List.range_succ]

theorem supplyUpTo_le_append (fetch : Nat → Option (List ListingNode))
    (pyhash : String → Int) {m K : Nat} (h : m ≤ K) :
    ∃ t, supplyUpTo fetch pyhash K = supplyUpTo fetch pyhash m ++ t := by
  induction K with
  | zero =>
    have : m = 0 := Nat.le_zero.mp h
    exact ⟨[], by simp [this]⟩
  | succ k ih =>
    by_cases hmk : m ≤ k
    · obtain ⟨t, ht⟩ := ih hmk
      exact ⟨t ++ extractedOf pyhash ((fetch (k + 1)).getD []),
        by rw [supplyUpTo_succ, ht, List.append_assoc]⟩
    · have : m = k + 1 := by omega
      exact ⟨[], by simp [this]⟩

theorem supplyUpTo_length_mono (fetch : Nat → Option (List ListingNode))
    (pyhash : String → Int) {m K : Nat} (h : m ≤ K) :
    (supplyUpTo fetch pyhash m).length ≤ (supplyUpTo fetch pyhash K).length := by
  obtain ⟨t, ht⟩ := supplyUpTo_le_append fetch pyhash h
  simp [ht]

/-- The sleep durations logged after processing pages `1..m` of a run
that advances through all of them. -/
def sleepLog (rng : ℚ → ℚ → Nat → ℚ) (m : Nat) : List ℚ :=
  (List.range m).map fun i => rng delay (delay + band_delay) (i + 1)

/-- If pages `1..m` all fetch successfully and each contributes at least
one extracted record, while the quota is still unmet after page `m`,
then the loop runs through all of them: it reaches page `m + 1` holding
exactly the records supplied by pages `1..m` and having slept once per
page advance. -/
theorem scrapeLoop_run (fetch : Nat → Option (List ListingNode))
    (pyhash : String → Int) (rng : ℚ → ℚ → Nat → ℚ)
    (results_wanted m : Nat)
    (hfetch : ∀ i, i < m →
      ∃ es, fetch (i + 1) = some es ∧ extractedOf pyhash es ≠ [])
    (hlen : (supplyUpTo fetch pyhash m).length < results_wanted) :
    scrapeLoop fetch pyhash rng results_wanted 1 [] []
      = scrapeLoop fetch pyhash rng results_wanted (m + 1)
          (supplyUpTo fetch pyhash m) (sleepLog rng m) := by
  induction m with
  | zero => simp [supplyUpTo_zero, sleepLog]
  | succ k ih =>
    have hk : (supplyUpTo fetch pyhash k).length < results_wanted :=
      lt_of_le_of_lt (supplyUpTo_length_mono fetch pyhash (Nat.le_succ k)) hlen
    rw [ih (fun i hi => hfetch i (Nat.lt_succ_of_lt hi)) hk]
    obtain ⟨es, hes, hne⟩ := hfetch k (Nat.lt_succ_self k)
    have hnen : es ≠ [] := by
      intro hnil
      exact hne (by simp [hnil, extractedOf])
    have hsup : supplyUpTo fetch pyhash (k + 1)
        = supplyUpTo fetch pyhash k ++ extractedOf pyhash es := by
      rw [supplyUpTo_succ, hes]
      rfl
    have hproc : processPage pyhash results_wanted es (supplyUpTo fetch pyhash k)
        = supplyUpTo fetch pyhash (k + 1) := by
      rw [processPage_eq pyhash results_wanted es (supplyUpTo fetch pyhash k) hk,
        if_neg (by rw [← hsup]; omega), hsup]
    have hdiff : (processPage pyhash results_wanted es
        (supplyUpTo fetch pyhash k)).length
        ≠ (supplyUpTo fetch pyhash k).length := by
      rw [hproc, hsup]
      simp only [List.length_append]
      have : extractedOf pyhash es ≠ [] := hne
      have hpos : 0 < (extractedOf pyhash es).length :=
        List.length_pos.mpr this
      omega
    rw [scrapeLoop_advance fetch pyhash rng results_wanted (k + 1)
      (supplyUpTo fetch pyhash k) (sleepLog rng k) es hk hes hnen hdiff]
    rw [hproc]
    have hlog : sleepLog rng (k + 1)
        = sleepLog rng k ++ [rng delay (delay + band_delay) (k + 1)] := by
      simp [sleepLog, List.range_succ]
    rw [hlog]

/-- Whatever happens after a state of the loop, the sleep log only
grows, and every duration it ever logs is a sample the `rng` oracle
drew at the bounds `delay` and `delay + band_delay`. -/
theorem scrapeLoop_sleeps_shape (fetch : Nat → Option (List ListingNode))
    (pyhash : String → Int) (rng : ℚ → ℚ → Nat → ℚ)
    (results_wanted page : Nat) (job_list : List JobPost) (sleeps : List ℚ) :
    ∃ t, (scrapeLoop fetch pyhash rng results_wanted page job_list sleeps).2
        = sleeps ++ t
      ∧ ∀ d ∈ t, ∃ i, d = rng delay (delay + band_delay) i := by
  induction page, job_list, sleeps using scrapeLoop.induct fetch pyhash rng
      results_wanted with
  | case1 page job_list sleeps h hf =>
    exact ⟨[], by rw [scrapeLoop_fetch_fail _ _ _ _ _ _ _ h hf]; simp⟩
  | case2 page job_list sleeps h es hf hemp =>
    have hes : es = [] := List.isEmpty_iff.mp hemp
    subst hes
    exact ⟨[], by rw [scrapeLoop_fetch_empty _ _ _ _ _ _ _ h hf]; simp⟩
  | case3 page job_list sleeps h es hf hemp hsame =>
    have hne : es ≠ [] := by
      intro hnil
      exact hemp (by simp [hnil])
    exact ⟨[], by
      rw [scrapeLoop_stagnate _ _ _ _ _ _ _ _ h hf hne hsame]; simp⟩
  | case4 page job_list sleeps h es hf hemp hsame ih =>
    have hne : es ≠ [] := by
      intro hnil
      exact hemp (by simp [hnil])
    obtain ⟨t, ht, hmem⟩ := ih
    refine ⟨rng delay (delay + band_delay) page :: t, ?_, ?_⟩
    · rw [scrapeLoop_advance _ _ _ _ _ _ _ _ h hf hne hsame, ht]
      simp
    · intro d hd
      rcases List.mem_cons.mp hd with hd | hd
      · exact ⟨page, hd⟩
      · exact hmem d hd
  | case5 page job_list sleeps h =>
    exact ⟨[], by rw [scrapeLoop_stop_quota _ _ _ _ _ _ _ h]; simp⟩

/-- Every record present after the inner page loop was either already
accumulated or successfully extracted from one of the page's nodes. -/
theorem processPage_mem (pyhash : String → Int) (results_wanted : Nat)
    (es : List ListingNode) (acc : List JobPost) (p : JobPost)
    (hp : p ∈ processPage pyhash results_wanted es acc) :
    p ∈ acc ∨ ∃ n, n ∈ es ∧ extract_job_info pyhash n = some p := by
  induction es generalizing acc with
  | nil =>
    left
    simpa [processPage] using hp
  | cons job rest ih =>
    simp only [processPage] at hp
    cases hx : extract_job_info pyhash job with
    | none =>
      rw [hx] at hp
      rcases ih acc hp with hin | ⟨n, hn, hxn⟩
      · exact Or.inl hin
      · exact Or.inr ⟨n, List.mem_cons_of_mem job hn, hxn⟩
    | some q =>
      rw [hx] at hp
      dsimp only at hp
      have hstep : p ∈ acc ++ [q] →
          p ∈ acc ∨ ∃ n, n ∈ job :: rest ∧ extract_job_info pyhash n = some p := by
        intro hmem
        rcases List.mem_append.mp hmem with hin | hq
        · exact Or.inl hin
        · have : p = q := by simpa using hq
          exact Or.inr ⟨job, List.mem_cons_self job rest, this ▸ hx⟩
      split at hp
      · exact hstep hp
      · rcases ih (acc ++ [q]) hp with hin | ⟨n, hn, hxn⟩
        · exact hstep hin
        · exact Or.inr ⟨n, List.mem_cons_of_mem job hn, hxn⟩

/-- Every record the pagination loop ever returns was either in the
initial accumulator or produced by `extract_job_info` on some node. -/
theorem scrapeLoop_mem (fetch : Nat → Option (List ListingNode))
    (pyhash : String → Int) (rng : ℚ → ℚ → Nat → ℚ)
    (results_wanted page : Nat) (job_list : List JobPost) (sleeps : List ℚ)
    (p : JobPost)
    (hp : p ∈ (scrapeLoop fetch pyhash rng results_wanted page
      job_list sleeps).1) :
    p ∈ job_list ∨ ∃ n, extract_job_info pyhash n = some p := by
  induction page, job_list, sleeps using scrapeLoop.induct fetch pyhash rng
      results_wanted with
  | case1 page job_list sleeps h hf =>
    rw [scrapeLoop_fetch_fail _ _ _ _ _ _ _ h hf] at hp
    exact Or.inl hp
  | case2 page job_list sleeps h es hf hemp =>
    have hes : es = [] := List.isEmpty_iff.mp hemp
    subst hes
    rw [scrapeLoop_fetch_empty _ _ _ _ _ _ _ h hf] at hp
    exact Or.inl hp
  | case3 page job_list sleeps h es hf hemp hsame =>
    have hne : es ≠ [] := by
      intro hnil
      exact hemp (by simp [hnil])
    rw [scrapeLoop_stagnate _ _ _ _ _ _ _ _ h hf hne hsame] at hp
    rcases processPage_mem pyhash results_wanted es job_list p hp with
      hin | ⟨n, _, hxn⟩
    · exact Or.inl hin
    · exact Or.inr ⟨n, hxn⟩
  | case4 page job_list sleeps h es hf hemp hsame ih =>
    have hne : es ≠ [] := by
      intro hnil
      exact hemp (by simp [hnil])
    rw [scrapeLoop_advance _ _ _ _ _ _ _ _ h hf hne hsame] at hp
    rcases ih hp with hin | hex
    · rcases processPage_mem pyhash results_wanted es job_list p hin with
        hin' | ⟨n, _, hxn⟩
      · exact Or.inl hin'
      · exact Or.inr ⟨n, hxn⟩
    · exact Or.inr hex
  | case5 page job_list sleeps h =>
    rw [scrapeLoop_stop_quota _ _ _ _ _ _ _ h] at hp
    exact Or.inl hp

/-- Every successfully extracted record carries the fixed values the
constructor call hard-codes: empty-string company URL, explicit `none`
for the fields the site cannot populate, and an empty e-mail list. -/
theorem extract_job_info_fixed_fields (pyhash : String → Int)
    (n : ListingNode) (p : JobPost)
    (hx : extract_job_info pyhash n = some p) :
    p.company_url = some "" ∧ p.date_posted = none ∧ p.compensation = none
      ∧ p.job_type = none ∧ p.job_level = none ∧ p.company_industry = none
      ∧ p.description = none ∧ p.job_url_direct = none ∧ p.emails = []
      ∧ p.company_logo = none ∧ p.job_function = none
      ∧ p.location.country = "worldwide" := by
  unfold extract_job_info at hx
  cases hh : n.h2 with
  | none => rw [hh] at hx; exact absurd hx (by simp)
  | some h2 =>
    rw [hh] at hx
    dsimp only at hx
    cases hu : extract_job_url h2 with
    | none => rw [hu] at hx; exact absurd hx (by simp)
    | some u =>
      rw [hu] at hx
      dsimp only at hx
      have hp := Option.some.inj hx
      subst hp
      simp

/-- The identifier of every successfully extracted record is the fixed
source tag `"bayt-"` followed by the absolute value of the hash of its
detail URL. -/
theorem extract_job_info_id (pyhash : String → Int)
    (n : ListingNode) (p : JobPost)
    (hx : extract_job_info pyhash n = some p) :
    p.id = "bayt-" ++ toString (pyhash p.job_url).natAbs := by
  unfold extract_job_info at hx
  cases hh : n.h2 with
  | none => rw [hh] at hx; exact absurd hx (by simp)
  | some h2 =>
    rw [hh] at hx
    dsimp only at hx
    cases hu : extract_job_url h2 with
    | none => rw [hu] at hx; exact absurd hx (by simp)
    | some u =>
      rw [hu] at hx
      dsimp only at hx
      have hp := Option.some.inj hx
      subst hp
      simp

theorem take_append_of_le (l₁ l₂ : List JobPost) (n : Nat)
    (h : n ≤ l₁.length) : (l₁ ++ l₂).take n = l₁.take n := by
  rw [List.take_append_eq_append_take, Nat.sub_eq_zero_of_le h]
  simp

/-- Modelled from the spec: the spec's HTTP boundary reads
`GET {base}/en/international/jobs/{urlencoded search term}-jobs/?page={n}`,
so a character that RFC 3986 percent-encoding leaves unchanged
(letters, digits, `-`, `_`, `.`, `~`). -/
def isUrlUnreserved (c : Char) : Bool :=
  c.isAlphanum || c = '-' || c = '_' || c = '.' || c = '~'

/-- Upper-case hexadecimal digit of a value below 16. -/
def hexDigitChar (n : Nat) : Char :=
  if n < 10 then Char.ofNat ('0'.toNat + n) else Char.ofNat ('A'.toNat + (n - 10))

/-- Modelled from the spec: percent-encoding of one character
(unreserved characters pass through, anything else becomes `%HH`;
stated for the ASCII range the repository's search terms live in). -/
def percentEncodeChar (c : Char) : List Char :=
  if isUrlUnreserved c then [c]
  else ['%', hexDigitChar (c.toNat / 16 % 16), hexDigitChar (c.toNat % 16)]

/-- Modelled from the spec: the "urlencoded search term" of the spec's
HTTP boundary, absent from the source (which interpolates the raw
term). -/
def percentEncode (s : String) : String :=
  ⟨s.data.flatMap percentEncodeChar⟩

/-- Modelled from the spec: the page URL exactly as §6 of the spec
writes it, with the search term URL-encoded. -/
def specFetchUrl (query : String) (page : Nat) : String :=
  base_url ++ "/en/international/jobs/" ++ percentEncode query
    ++ "-jobs/?page=" ++ toString page

theorem percentEncode_of_unreserved (s : String)
    (h : ∀ c ∈ s.data, isUrlUnreserved c = true) : percentEncode s = s := by
  have hflat : ∀ l : List Char, (∀ c ∈ l, isUrlUnreserved c = true) →
      l.flatMap percentEncodeChar = l := by
    intro l hl
    induction l with
    | nil => rfl
    | cons c rest ih =>
      rw [List.flatMap_cons, percentEncodeChar,
        if_pos (hl c (List.mem_cons_self c rest)),
        ih fun d hd => hl d (List.mem_cons_of_mem c hd)]
      rfl
  show String.mk (s.data.flatMap percentEncodeChar) = s
  rw [hflat s.data h]

/-- A process-local string hash standing in for Python's `hash` in the
concrete scenarios. -/
def cHash : String → Int := fun s => (s.length : Int)

/-- A degenerate `random.uniform` oracle that always returns the lower
bound. -/
def cRng : ℚ → ℚ → Nat → ℚ := fun a _ _ => a

/-- A well-formed listing node: title heading with a detail link,
company span and location text all present. -/
def cNode : ListingNode :=
  { h2 := some { text := "Engineer", anchor := some { href := some "/en/job/engineer-1/" } }
    companyDiv := some { spanText := some "Acme" }
    locationText := some "Dubai" }

/-- A malformed listing node: no `<h2>` heading at all, so extraction
returns `none`. -/
def cBadNode : ListingNode :=
  { h2 := none, companyDiv := none, locationText := none }

/-- A second well-formed node with a different title but the same
detail link as `cNode`. -/
def cNodeB : ListingNode :=
  { h2 := some { text := "Senior Engineer", anchor := some { href := some "/en/job/engineer-1/" } }
    companyDiv := none
    locationText := none }

/-- The record `extract_job_info cHash` produces from `cNode`. -/
def cPost : JobPost :=
  { id := "bayt-39"
    title := "Engineer"
    company_name := some "Acme"
    company_url := some ""
    location := { city := some "Dubai", country := "worldwide" }
    date_posted := none
    job_url := "https://www.bayt.com/en/job/engineer-1/"
    compensation := none
    job_type := none
    job_level := none
    company_industry := none
    description := none
    job_url_direct := none
    emails := []
    company_logo := none
    job_function := none }

/-- The record `extract_job_info cHash` produces from `cNodeB`: same
identifier and URL as `cPost`, different title, no company or city. -/
def cPostB : JobPost :=
  { cPost with
    title := "Senior Engineer"
    company_name := none
    location := { city := none, country := "worldwide" } }

/-- An HTTP oracle for which every request succeeds. -/
def cHttpOk : String → Option String := fun _ => some "body"

/-- An HTTP oracle for which every request fails. -/
def cHttpFail : String → Option String := fun _ => none

/-- A parser that finds the single well-formed listing on every page. -/
def cParseOne : String → List ListingNode := fun _ => [cNode]

/-- A parser that finds one malformed listing on every page. -/
def cParseBad : String → List ListingNode := fun _ => [cBadNode]

/-- An HTTP oracle for which only page 1 of the `"engineer"` search
succeeds. -/
def c6Http : String → Option String :=
  fun u => if u = fetch_url "engineer" 1 then some "page1" else none

/-- A parser returning three well-formed and two malformed listings. -/
def c6Parse : String → List ListingNode :=
  fun _ => [cNode, cBadNode, cNode, cBadNode, cNode]

/-- Evaluation of one full scrape on the single-listing scenario with a
quota of 1: the loop processes page 1, reaches the quota, sleeps once,
and stops on re-entry. -/
theorem cScrapeOne_eval :
    (scrape cHttpOk cParseOne cHash cRng "engineer" (some 1)).jobs = [cPost] := by
  have hproc : processPage cHash 1 [cNode] [] = [cPost] := by decide
  unfold scrape scrapeRun
  rw [show effective_results_wanted (some 1) = 1 from rfl]
  rw [scrapeLoop_advance _ _ _ _ _ _ _ [cNode] (by decide) rfl (by decide)
    (by rw [hproc]; decide)]
  rw [hproc, scrapeLoop_stop_quota _ _ _ _ _ _ _ (by decide)]
  rfl

/-- C2: `scrape` is a total function into `JobResponse` (it is embedded
as one), and when the first page fetch fails — the HTTP oracle returns
`none`, covering transport errors, non-success statuses and timeouts —
the returned result set is empty, for every requested count. -/
theorem bayt_first_fetch_fail_empty (http : String → Option String)
    (parseListings : String → List ListingNode) (pyhash : String → Int)
    (rng : ℚ → ℚ → Nat → ℚ) (q : String) (rwi : Option Nat)
    (h : http (fetch_url q 1) = none) :
    scrape http parseListings pyhash rng q rwi = { jobs := [] } := by
  have hf : fetchJobs http parseListings q 1 = none := by
    simp [fetchJobs, h]
  have hloop : scrapeLoop (fun p => fetchJobs http parseListings q p) pyhash rng
      (effective_results_wanted rwi) 1 [] [] = ([], []) := by
    by_cases h0 : ([] : List JobPost).length < effective_results_wanted rwi
    · exact scrapeLoop_fetch_fail _ _ _ _ _ _ _ h0 hf
    · exact scrapeLoop_stop_quota _ _ _ _ _ _ _ h0
  unfold scrape scrapeRun
  rw [hloop]
  cases rwi <;> simp

/-- C2 witness: a concrete run whose every HTTP request fails returns
the empty result set. -/
theorem bayt_first_fetch_fail_empty_witness :
    scrape cHttpFail cParseOne cHash cRng "engineer" (some 5) = { jobs := [] } :=
  bayt_first_fetch_fail_empty cHttpFail cParseOne cHash cRng "engineer"
    (some 5) rfl

/-- C9: a requested count of 0 is falsy, so the loop's quota falls back
to 10, but the final slice `job_list[:0]` discards everything: the
returned result set is empty for every oracle. -/
theorem bayt_results_wanted_zero_empty (http : String → Option String)
    (parseListings : String → List ListingNode) (pyhash : String → Int)
    (rng : ℚ → ℚ → Nat → ℚ) (q : String) :
    effective_results_wanted (some 0) = 10
      ∧ (scrape http parseListings pyhash rng q (some 0)).jobs = [] := by
  refine ⟨rfl, ?_⟩
  unfold scrape
  simp

/-- C10: every record `scrape` returns has the empty string (not null)
as company URL, explicit nulls for the fields the search page cannot
populate, and an empty e-mail list. -/
theorem bayt_fixed_fields_invariant (http : String → Option String)
    (parseListings : String → List ListingNode) (pyhash : String → Int)
    (rng : ℚ → ℚ → Nat → ℚ) (q : String) (rwi : Option Nat) (p : JobPost)
    (hp : p ∈ (scrape http parseListings pyhash rng q rwi).jobs) :
    p.company_url = some "" ∧ p.date_posted = none ∧ p.compensation = none
      ∧ p.job_type = none ∧ p.job_level = none ∧ p.company_industry = none
      ∧ p.description = none ∧ p.job_url_direct = none ∧ p.emails = []
      ∧ p.company_logo = none ∧ p.job_function = none := by
  have hmem : p ∈ (scrapeRun http parseListings pyhash rng q rwi).1 := by
    unfold scrape at hp
    cases rwi with
    | none => simpa using hp
    | some n => exact List.mem_of_mem_take (by simpa using hp)
  unfold scrapeRun at hmem
  rcases scrapeLoop_mem _ _ _ _ _ _ _ p hmem with hin | ⟨n, hx⟩
  · simp at hin
  · have hfix := extract_job_info_fixed_fields pyhash n p hx
    tauto

/-- C10 witness: the record returned by the concrete single-listing run
satisfies the fixed-field invariant. -/
theorem bayt_fixed_fields_invariant_witness :
    cPost.company_url = some "" ∧ cPost.date_posted = none
      ∧ cPost.compensation = none ∧ cPost.job_type = none
      ∧ cPost.job_level = none ∧ cPost.company_industry = none
      ∧ cPost.description = none ∧ cPost.job_url_direct = none
      ∧ cPost.emails = [] ∧ cPost.company_logo = none
      ∧ cPost.job_function = none :=
  bayt_fixed_fields_invariant cHttpOk cParseOne cHash cRng "engineer"
    (some 1) cPost (by rw [cScrapeOne_eval]; exact List.mem_singleton.mpr rfl)

/-- C7: the identifier of an extracted record is a pure function of its
detail URL — two extractions with equal detail URLs yield equal
identifiers, each the fixed `"bayt-"` tag followed by the hash of the
URL. -/
theorem bayt_id_pure_function_of_url (pyhash : String → Int)
    (n₁ n₂ : ListingNode) (p₁ p₂ : JobPost)
    (h₁ : extract_job_info pyhash n₁ = some p₁)
    (h₂ : extract_job_info pyhash n₂ = some p₂)
    (hurl : p₁.job_url = p₂.job_url) :
    p₁.id = p₂.id
      ∧ p₁.id = "bayt-" ++ toString (pyhash p₁.job_url).natAbs := by
  have e₁ := extract_job_info_id pyhash n₁ p₁ h₁
  have e₂ := extract_job_info_id pyhash n₂ p₂ h₂
  exact ⟨by rw [e₁, e₂, hurl], e₁⟩

/-- C7 witness: two concrete nodes with different titles but the same
detail link produce records with the same identifier. -/
theorem bayt_id_pure_function_of_url_witness :
    cPost.id = cPostB.id
      ∧ cPost.id = "bayt-" ++ toString (cHash cPost.job_url).natAbs :=
  bayt_id_pure_function_of_url cHash cNode cNodeB cPost cPostB (by decide)
    (by decide) (by decide)

/-- C5: if pages `1..m` each contribute at least one record without
reaching the quota, and page `m + 1` yields a non-empty node list on
which every extraction fails, pagination stops after page `m + 1` (the
stagnation rule) and exactly the records accumulated from pages `1..m`
are returned, even though the quota is unmet. -/
theorem bayt_all_extract_fail_stops (http : String → Option String)
    (parseListings : String → List ListingNode) (pyhash : String → Int)
    (rng : ℚ → ℚ → Nat → ℚ) (q : String) (results_wanted m : Nat)
    (ns : List ListingNode)
    (hrun : ∀ i, i < m → ∃ es, fetchJobs http parseListings q (i + 1) = some es
      ∧ extractedOf pyhash es ≠ [])
    (hlen : (supplyUpTo (fun p => fetchJobs http parseListings q p) pyhash
      m).length < results_wanted)
    (hns : fetchJobs http parseListings q (m + 1) = some ns) (hne : ns ≠ [])
    (hfail : ∀ n ∈ ns, extract_job_info pyhash n = none) :
    (scrape http parseListings pyhash rng q (some results_wanted)).jobs
      = supplyUpTo (fun p => fetchJobs http parseListings q p) pyhash m := by
  have heff : effective_results_wanted (some results_wanted) = results_wanted := by
    simp only [effective_results_wanted]
    rw [if_neg (by omega)]
  have hext : extractedOf pyhash ns = [] := by
    simp only [extractedOf, List.filterMap_eq_nil_iff]
    exact hfail
  have hproc : processPage pyhash results_wanted ns
      (supplyUpTo (fun p => fetchJobs http parseListings q p) pyhash m)
      = supplyUpTo (fun p => fetchJobs http parseListings q p) pyhash m := by
    rw [processPage_eq _ _ _ _ hlen, hext]
    rw [if_neg (by simpa using hlen)]
    simp
  unfold scrape scrapeRun
  rw [heff, scrapeLoop_run _ pyhash rng results_wanted m hrun hlen]
  rw [scrapeLoop_stagnate _ _ _ _ _ _ _ ns hlen hns hne (by rw [hproc])]
  rw [hproc]
  exact List.take_of_length_le (le_of_lt hlen)

/-- C5 witness: page 1 yields one node with no heading (extraction
fails), so the run returns the empty accumulation of zero prior
pages. -/
theorem bayt_all_extract_fail_stops_witness :
    (scrape cHttpOk cParseBad cHash cRng "engineer" (some 5)).jobs
      = supplyUpTo (fun p => fetchJobs cHttpOk cParseBad "engineer" p) cHash 0 :=
  bayt_all_extract_fail_stops cHttpOk cParseBad cHash cRng "engineer" 5 0
    [cBadNode] (fun i hi => absurd hi (Nat.not_lt_zero i)) (by decide) rfl
    (by decide) (by decide)

/-- C6: if pages `1..m` each contribute at least one record without
reaching the quota, and the fetch of page `m + 1` fails or finds no
listing nodes, pagination ends there and exactly the records
accumulated from pages `1..m` are returned (truncation is the identity
because the quota was never reached). -/
theorem bayt_fetch_fail_returns_accumulated (http : String → Option String)
    (parseListings : String → List ListingNode) (pyhash : String → Int)
    (rng : ℚ → ℚ → Nat → ℚ) (q : String) (results_wanted m : Nat)
    (hrun : ∀ i, i < m → ∃ es, fetchJobs http parseListings q (i + 1) = some es
      ∧ extractedOf pyhash es ≠ [])
    (hlen : (supplyUpTo (fun p => fetchJobs http parseListings q p) pyhash
      m).length < results_wanted)
    (hfail : fetchJobs http parseListings q (m + 1) = none
      ∨ fetchJobs http parseListings q (m + 1) = some []) :
    (scrape http parseListings pyhash rng q (some results_wanted)).jobs
      = supplyUpTo (fun p => fetchJobs http parseListings q p) pyhash m := by
  have heff : effective_results_wanted (some results_wanted) = results_wanted := by
    simp only [effective_results_wanted]
    rw [if_neg (by omega)]
  unfold scrape scrapeRun
  rw [heff, scrapeLoop_run _ pyhash rng results_wanted m hrun hlen]
  rcases hfail with hf | hf
  · rw [scrapeLoop_fetch_fail _ _ _ _ _ _ _ hlen hf]
    exact List.take_of_length_le (le_of_lt hlen)
  · rw [scrapeLoop_fetch_empty _ _ _ _ _ _ _ hlen hf]
    exact List.take_of_length_le (le_of_lt hlen)

/-- C6 witness (the spec's scenario 2): page 1 carries three valid and
two malformed listings, the requested count is 10, and the page-2 fetch
fails; the result is the three page-1 records. -/
theorem bayt_fetch_fail_returns_accumulated_witness :
    (scrape c6Http c6Parse cHash cRng "engineer" (some 10)).jobs
        = supplyUpTo (fun p => fetchJobs c6Http c6Parse "engineer" p) cHash 1
      ∧ (scrape c6Http c6Parse cHash cRng "engineer" (some 10)).jobs.length
        = 3 := by
  have h := bayt_fetch_fail_returns_accumulated c6Http c6Parse cHash cRng
    "engineer" 10 1
    (fun i hi => ⟨[cNode, cBadNode, cNode, cBadNode, cNode],
      by rw [show i = 0 by omega]; exact ⟨by decide, by decide⟩⟩)
    (by decide) (Or.inl (by decide))
  exact ⟨h, by rw [h]; decide⟩

/-- C3 counterexample: page 1 and page 2 (and every page) return the
same single listing; with a requested count of 3 the duplicate is
appended again and again — the run does not stop after page 2 with 1
record, it returns 3 identical records. -/
theorem bayt_stagnation_duplicate_cex :
    (scrape cHttpOk cParseOne cHash cRng "engineer" (some 3)).jobs
        = [cPost, cPost, cPost]
      ∧ (scrape cHttpOk cParseOne cHash cRng "engineer" (some 3)).jobs.length
        ≠ 1 := by
  have heval : (scrape cHttpOk cParseOne cHash cRng "engineer" (some 3)).jobs
      = [cPost, cPost, cPost] := by
    have hrun : ∀ i, i < 2 →
        ∃ es, fetchJobs cHttpOk cParseOne "engineer" (i + 1) = some es
          ∧ extractedOf cHash es ≠ [] :=
      fun i _ => ⟨[cNode], rfl, by decide⟩
    unfold scrape scrapeRun
    rw [show effective_results_wanted (some 3) = 3 from rfl]
    rw [scrapeLoop_run _ cHash cRng 3 2 hrun (by decide)]
    rw [scrapeLoop_advance _ _ _ _ _ _ _ [cNode] (by decide) rfl (by decide)
      (by decide)]
    rw [scrapeLoop_stop_quota _ _ _ _ _ _ _ (by decide)]
    decide
  exact ⟨heval, by rw [heval]; decide⟩

/-- C3 amended: when pages 1 and 2 both return the same single listing,
the page-2 duplicate is appended again (no deduplication is performed),
so the stagnation rule does not fire; with a requested count of 2 the
run stops after page 2 by the quota rule and returns the record
twice. -/
theorem bayt_duplicate_page_appends (http : String → Option String)
    (parseListings : String → List ListingNode) (pyhash : String → Int)
    (rng : ℚ → ℚ → Nat → ℚ) (q : String) (ns : List ListingNode) (p : JobPost)
    (h1 : fetchJobs http parseListings q 1 = some ns)
    (h2 : fetchJobs http parseListings q 2 = some ns)
    (hex : extractedOf pyhash ns = [p]) :
    (scrape http parseListings pyhash rng q (some 2)).jobs = [p, p] := by
  have hne : ns ≠ [] := by
    intro hnil
    rw [hnil] at hex
    exact absurd hex (by simp [extractedOf])
  have hproc1 : processPage pyhash 2 ns [] = [p] := by
    rw [processPage_eq _ _ _ _ (by simp), hex]
    rw [if_neg (by simp)]
    rfl
  have hproc2 : processPage pyhash 2 ns [p] = [p, p] := by
    rw [processPage_eq _ _ _ _ (by simp), hex]
    rw [if_pos (by simp)]
    rfl
  unfold scrape scrapeRun
  rw [show effective_results_wanted (some 2) = 2 from rfl]
  rw [scrapeLoop_advance _ _ _ _ _ _ _ ns (by simp) h1 hne
    (by rw [hproc1]; simp)]
  rw [hproc1]
  rw [scrapeLoop_advance _ _ _ _ _ _ _ ns (by simp) h2 hne
    (by rw [hproc2]; simp)]
  rw [hproc2]
  rw [scrapeLoop_stop_quota _ _ _ _ _ _ _ (by simp)]
  rfl

/-- C3 amended witness: the concrete single-listing site with a
requested count of 2 returns the same record twice. -/
theorem bayt_duplicate_page_appends_witness :
    (scrape cHttpOk cParseOne cHash cRng "engineer" (some 2)).jobs
      = [cPost, cPost] :=
  bayt_duplicate_page_appends cHttpOk cParseOne cHash cRng "engineer" [cNode]
    cPost rfl rfl (by decide)

/-- C4 counterexample: for the search term `"software engineer"` the
constructed URL contains the raw space; it differs from the spec's
URL-encoded form. -/
theorem bayt_url_not_urlencoded_cex :
    fetch_url "software engineer" 1
        = "https://www.bayt.com/en/international/jobs/software engineer-jobs/?page=1"
      ∧ specFetchUrl "software engineer" 1
        = "https://www.bayt.com/en/international/jobs/software%20engineer-jobs/?page=1"
      ∧ fetch_url "software engineer" 1 ≠ specFetchUrl "software engineer" 1 :=
  ⟨by decide, by decide, by decide⟩

/-- C4 amended: the fetch URL is
`{base}/en/international/jobs/{search term}-jobs/?page={n}` with the
term interpolated verbatim; it coincides with the spec's URL-encoded
form exactly when every character of the term is one that
percent-encoding leaves unchanged. -/
theorem bayt_url_verbatim_term (q : String) (n : Nat)
    (h : ∀ c ∈ q.data, isUrlUnreserved c = true) :
    fetch_url q n = specFetchUrl q n := by
  unfold fetch_url specFetchUrl
  rw [percentEncode_of_unreserved q h]

/-- C4 amended witness: the all-unreserved term `"engineer"` yields the
spec's URL verbatim. -/
theorem bayt_url_verbatim_term_witness :
    fetch_url "engineer" 1 = specFetchUrl "engineer" 1 :=
  bayt_url_verbatim_term "engineer" 1 (by decide)

/-- If pages `1..K` all fetch successfully, each contributes at least
one extracted record, and together they supply at least `N ≥ 1`
records, the loop stops by quota holding the first `N` supplied
records. -/
theorem scrapeLoop_quota_reached (fetch : Nat → Option (List ListingNode))
    (pyhash : String → Int) (rng : ℚ → ℚ → Nat → ℚ) (N K : Nat) (hN : 1 ≤ N)
    (hfetch : ∀ k, k < K → ∃ es, fetch (k + 1) = some es
      ∧ extractedOf pyhash es ≠ [])
    (hsup : N ≤ (supplyUpTo fetch pyhash K).length) :
    (scrapeLoop fetch pyhash rng N 1 [] []).1
      = (supplyUpTo fetch pyhash K).take N := by
  have hK0 : K ≠ 0 := by
    intro h0
    rw [h0, supplyUpTo_zero] at hsup
    simp at hsup
    omega
  have hexP : ∃ j, N ≤ (supplyUpTo fetch pyhash (j + 1)).length :=
    ⟨K - 1, by rw [show K - 1 + 1 = K by omega]; exact hsup⟩
  have hkey : ∃ m, m + 1 ≤ K ∧ N ≤ (supplyUpTo fetch pyhash (m + 1)).length
      ∧ (supplyUpTo fetch pyhash m).length < N := by
    refine ⟨Nat.find hexP, ?_, Nat.find_spec hexP, ?_⟩
    · have h1 := Nat.find_min' hexP
        (show N ≤ (supplyUpTo fetch pyhash (K - 1 + 1)).length by
          rw [show K - 1 + 1 = K by omega]; exact hsup)
      omega
    · cases hm0 : Nat.find hexP with
      | zero => rw [supplyUpTo_zero]; simpa using hN
      | succ j =>
        have hfind := Nat.find_min hexP (show j < Nat.find hexP by omega)
        omega
  obtain ⟨m, hmK, hm, hlt⟩ := hkey
  obtain ⟨es, hes, hne⟩ := hfetch m (by omega)
  have hnen : es ≠ [] := by
    intro hnil
    exact hne (by simp [hnil, extractedOf])
  have hsupm1 : supplyUpTo fetch pyhash (m + 1)
      = supplyUpTo fetch pyhash m ++ extractedOf pyhash es := by
    rw [supplyUpTo_succ, hes]
    rfl
  have hproc : processPage pyhash N es (supplyUpTo fetch pyhash m)
      = (supplyUpTo fetch pyhash (m + 1)).take N := by
    rw [processPage_eq _ _ _ _ hlt, ← hsupm1, if_pos hm]
  have hlen_take : ((supplyUpTo fetch pyhash (m + 1)).take N).length = N := by
    rw [List.length_take]
    omega
  rw [scrapeLoop_run fetch pyhash rng N m
    (fun i hi => hfetch i (by omega)) hlt]
  rw [scrapeLoop_advance _ _ _ _ _ _ _ es hlt hes hnen
    (by rw [hproc, hlen_take]; omega)]
  rw [hproc, scrapeLoop_stop_quota _ _ _ _ _ _ _ (by rw [hlen_take]; omega)]
  dsimp only
  obtain ⟨t, ht⟩ := supplyUpTo_le_append fetch pyhash hmK
  rw [ht, take_append_of_le _ _ _ hm]

/-- C1 (truncation law): for every requested count `N ≥ 1`, if pages
`1..K` all fetch successfully, each contributes at least one extracted
record, and together they supply at least `N` records, then `scrape`
returns exactly the first `N` records of that supply — `N` records, in
discovery order across pages. -/
theorem bayt_truncation_law (http : String → Option String)
    (parseListings : String → List ListingNode) (pyhash : String → Int)
    (rng : ℚ → ℚ → Nat → ℚ) (q : String) (N K : Nat) (hN : 1 ≤ N)
    (hfetch : ∀ k, k < K → ∃ es, fetchJobs http parseListings q (k + 1) = some es
      ∧ extractedOf pyhash es ≠ [])
    (hsup : N ≤ (supplyUpTo (fun p => fetchJobs http parseListings q p) pyhash
      K).length) :
    (scrape http parseListings pyhash rng q (some N)).jobs
        = (supplyUpTo (fun p => fetchJobs http parseListings q p) pyhash
            K).take N
      ∧ (scrape http parseListings pyhash rng q (some N)).jobs.length = N := by
  have heff : effective_results_wanted (some N) = N := by
    simp only [effective_results_wanted]
    rw [if_neg (by omega)]
  have hloop := scrapeLoop_quota_reached
    (fun p => fetchJobs http parseListings q p) pyhash rng N K hN hfetch hsup
  have hjobs : (scrape http parseListings pyhash rng q (some N)).jobs
      = (supplyUpTo (fun p => fetchJobs http parseListings q p) pyhash
          K).take N := by
    unfold scrape scrapeRun
    rw [heff, hloop]
    show List.take N (List.take N (supplyUpTo
        (fun p => fetchJobs http parseListings q p) pyhash K))
      = List.take N (supplyUpTo
          (fun p => fetchJobs http parseListings q p) pyhash K)
    rw [List.take_take]
    simp
  refine ⟨hjobs, ?_⟩
  rw [hjobs, List.length_take]
  omega

/-- C1 witness (the spec's scenario 1 in miniature): page 1 supplies at
least one record and the requested count 1 is returned exactly, in
discovery order. -/
theorem bayt_truncation_law_witness :
    (scrape cHttpOk cParseOne cHash cRng "engineer" (some 1)).jobs
        = (supplyUpTo (fun p => fetchJobs cHttpOk cParseOne "engineer" p) cHash
            1).take 1
      ∧ (scrape cHttpOk cParseOne cHash cRng "engineer" (some 1)).jobs.length
        = 1 :=
  bayt_truncation_law cHttpOk cParseOne cHash cRng "engineer" 1 1 (by decide)
    (fun k _ => ⟨[cNode], rfl, by decide⟩) (by decide)

/-- C8: the loop sleeps once per page advance, passing `random.uniform`
the bounds `delay = 2` and `delay + band_delay = 5`; if the sampling
oracle honours its bounds, then across a run whose first two pages each
make progress (a 3-page run) at least two delays are logged, and every
logged delay lies in `[2, 5]`. -/
theorem bayt_rate_limit_delays (http : String → Option String)
    (parseListings : String → List ListingNode) (pyhash : String → Int)
    (rng : ℚ → ℚ → Nat → ℚ) (q : String) (results_wanted : Nat)
    (hrng : ∀ a b i, a ≤ b → a ≤ rng a b i ∧ rng a b i ≤ b)
    (hrun : ∀ i, i < 2 → ∃ es, fetchJobs http parseListings q (i + 1) = some es
      ∧ extractedOf pyhash es ≠ [])
    (hlen : (supplyUpTo (fun p => fetchJobs http parseListings q p) pyhash
      2).length < results_wanted) :
    2 ≤ (scrapeSleeps http parseListings pyhash rng q
        (some results_wanted)).length
      ∧ ∀ d ∈ scrapeSleeps http parseListings pyhash rng q
          (some results_wanted), (2 : ℚ) ≤ d ∧ d ≤ 5 := by
  have hbounds : ∀ i, (2 : ℚ) ≤ rng delay (delay + band_delay) i
      ∧ rng delay (delay + band_delay) i ≤ 5 := by
    intro i
    have hb := hrng delay (delay + band_delay) i
      (by norm_num [delay, band_delay])
    constructor
    · calc (2 : ℚ) = delay := by norm_num [delay]
        _ ≤ rng delay (delay + band_delay) i := hb.1
    · calc rng delay (delay + band_delay) i ≤ delay + band_delay := hb.2
        _ = 5 := by norm_num [delay, band_delay]
  have heff : effective_results_wanted (some results_wanted) = results_wanted := by
    simp only [effective_results_wanted]
    rw [if_neg (by omega)]
  have hsl : scrapeSleeps http parseListings pyhash rng q (some results_wanted)
      = (scrapeLoop (fun p => fetchJobs http parseListings q p) pyhash rng
          results_wanted 3 (supplyUpTo (fun p => fetchJobs http parseListings
            q p) pyhash 2) (sleepLog rng 2)).2 := by
    unfold scrapeSleeps scrapeRun
    rw [heff, scrapeLoop_run _ pyhash rng results_wanted 2 hrun hlen]
  obtain ⟨t, ht, hmem⟩ := scrapeLoop_sleeps_shape
    (fun p => fetchJobs http parseListings q p) pyhash rng results_wanted 3
    (supplyUpTo (fun p => fetchJobs http parseListings q p) pyhash 2)
    (sleepLog rng 2)
  rw [hsl, ht]
  constructor
  · simp [sleepLog]
  · intro d hd
    rcases List.mem_append.mp hd with hd | hd
    · simp only [sleepLog, List.mem_map, List.mem_range] at hd
      obtain ⟨i, _, hdi⟩ := hd
      rw [← hdi]
      exact hbounds (i + 1)
    · obtain ⟨i, hdi⟩ := hmem d hd
      rw [hdi]
      exact hbounds i

/-- C8 witness: the concrete single-listing site with quota 10 and the
lower-bound sampling oracle logs at least two delays, all in `[2, 5]`. -/
theorem bayt_rate_limit_delays_witness :
    2 ≤ (scrapeSleeps cHttpOk cParseOne cHash cRng "engineer"
        (some 10)).length
      ∧ ∀ d ∈ scrapeSleeps cHttpOk cParseOne cHash cRng "engineer" (some 10),
          (2 : ℚ) ≤ d ∧ d ≤ 5 :=
  bayt_rate_limit_delays cHttpOk cParseOne cHash cRng "engineer" 10
    (fun a b i hab => ⟨le_refl a, hab⟩)
    (fun i _ => ⟨[cNode], rfl, by decide⟩) (by decide)

end BaytScraper
